import Mathlib

/-!
Verification of the hierarchical console stopwatch.

The embedding follows the C sources:
* the hierarchical variant (`Split` with `parent`/`level`, handlers for the
  keys s/r/g/n/h/u/t in `main`, the hand-rolled `format_time`, `save_log`);
* the flat variant `stopwatch.c` (its `sprintf`-based `format_time` is
  embedded as `format_time_sprintf`).

Time values (doubles in C) are modelled as rationals; `(int)x` truncation is
modelled as `Int.floor` composed with `Int.toNat`, which coincides with the C
cast for the non-negative times all claims are about.  Console drawing and
the raw key/stdin I/O are external collaborators: an `Event` carries the key
together with the data the handler reads at that instant (the performance
counter value `now`, the line typed on stdin, the wall-clock time).
-/

/-- One timed split node.  C field `end` is called `endT` (`end` is a Lean
keyword); the sentinel for "still open" is a negative `endT`, written `-1`
at creation exactly as in the C sources. -/
structure Split where
  name : String
  start : ℚ
  endT : ℚ
  parent : Int
  level : Int
  deriving Repr, DecidableEq

/-- The global mutable state of the hierarchical variant:
`running`, `elapsed`, `freq`/`startCount` (performance counter),
`splits` (array plus `splitCount`), `activeSplit` (−1 for none),
`mainGoal`, `logStart` (wall-clock capture for export). -/
structure State where
  running : Bool
  elapsed : ℚ
  freq : ℚ
  startCount : ℚ
  splits : List Split
  activeSplit : Int
  mainGoal : String
  logStart : ℚ
  deriving Repr

/-- `MAX_SPLITS` of the hierarchical variant. -/
def MAX_SPLITS : Nat := 50

/-- C array indexing `splits[i]` with an `int` index; all reachable accesses
are in bounds (proved below), the default is irrelevant. -/
def getSplit (l : List Split) (i : Int) : Split :=
  l.getD i.toNat ⟨"", 0, 0, -1, 0⟩

/-- One keypress, carrying what the handler reads at that instant:
the performance-counter value `now`, the stdin line (goal or split name,
newline already stripped, as after `strcspn`), and for session start the
wall-clock reading `wall` (`time(NULL)`). -/
inductive Event where
  | keyS (now : ℚ) (goal : String) (wall : ℚ)
  | keyR
  | keyG (now : ℚ) (nm : String)
  | keyN (now : ℚ) (nm : String)
  | keyH (now : ℚ)
  | keyU
  | keyT
  deriving Repr

/-- `cur = elapsed + (now.QuadPart - startCount.QuadPart)/freq.QuadPart`,
computed at the top of the keypress dispatch. -/
def cur (s : State) (now : ℚ) : ℚ :=
  s.elapsed + (now - s.startCount) / s.freq

/-- The `switch(c)` dispatch of `main` in the hierarchical variant,
one case per key.  `keyT` (save log) does not mutate the state. -/
def step (s : State) : Event → State
  | .keyS now goal wall =>
      if s.running then
        { s with elapsed := cur s now, running := false }
      else
        { s with mainGoal := goal, logStart := wall, startCount := now,
                 elapsed := 0, splits := [], activeSplit := -1, running := true }
  | .keyR =>
      { s with running := false, elapsed := 0, splits := [],
               mainGoal := "", activeSplit := -1 }
  | .keyG now nm =>
      if s.running ∧ s.splits.length < MAX_SPLITS then
        let lvl : Int :=
          if 0 ≤ s.activeSplit then (getSplit s.splits s.activeSplit).level + 1 else 0
        { s with splits := s.splits ++ [⟨nm, cur s now, -1, s.activeSplit, lvl⟩],
                 activeSplit := (s.splits.length : Int) }
      else s
  | .keyN now nm =>
      if s.running ∧ 0 ≤ s.activeSplit ∧ s.splits.length < MAX_SPLITS then
        { s with splits := s.splits ++
                   [⟨nm, cur s now, -1, s.activeSplit,
                     (getSplit s.splits s.activeSplit).level + 1⟩],
                 activeSplit := (s.splits.length : Int) }
      else s
  | .keyH now =>
      if 0 ≤ s.activeSplit then
        let sp := getSplit s.splits s.activeSplit
        { s with splits := s.splits.set s.activeSplit.toNat { sp with endT := cur s now },
                 activeSplit := sp.parent }
      else s
  | .keyU =>
      if 0 ≤ s.activeSplit then
        { s with activeSplit := (getSplit s.splits s.activeSplit).parent }
      else s
  | .keyT => s

/-- The state at program start: everything zeroed, `*mainGoal='\0'`,
`activeSplit=-1`; `freq` is the queried performance frequency. -/
def init (freq : ℚ) : State :=
  { running := false, elapsed := 0, freq := freq, startCount := 0,
    splits := [], activeSplit := -1, mainGoal := "", logStart := 0 }

/-- Run a sequence of keypresses from a state. -/
def execEvents (s : State) (evs : List Event) : State :=
  evs.foldl step s

/-- A state the program can reach from start under some keypress sequence. -/
def Reachable (s : State) : Prop :=
  ∃ freq evs, s = execEvents (init freq) evs

/-- The C expression `'0'+d` stored into a `char`.  For `d ≤ 9` this is the
digit character; the hierarchical variant also evaluates it at `d = 10`
(hours of 100), where it yields the colon character. -/
def digitChar (d : Nat) : Char := Char.ofNat (48 + d)

/-- The hand-rolled `format_time` of the hierarchical variant: a fixed
12-character `HH:MM:SS.mmm` buffer with `buf[0]='0'+h/10`, `buf[1]='0'+h%10`,
etc.  `(int)` casts are floors for the non-negative times in use. -/
def format_time (t : ℚ) : String :=
  let ms : Nat := (Int.toNat ⌊t * 1000⌋) % 1000
  let totalSec : Nat := Int.toNat ⌊t⌋
  let s : Nat := totalSec % 60
  let m : Nat := (totalSec / 60) % 60
  let h : Nat := totalSec / 3600
  String.mk [digitChar (h / 10), digitChar (h % 10), ':',
             digitChar (m / 10), digitChar (m % 10), ':',
             digitChar (s / 10), digitChar (s % 10), '.',
             digitChar ((ms / 100) % 10), digitChar ((ms / 10) % 10),
             digitChar (ms % 10)]

/-- Decimal numeral digits, fuel-driven so that it is structural (the fuel
`n + 1` always suffices, since the value shrinks by a factor of ten per
digit while the fuel drops by one). -/
def decimalDigitsAux : Nat → Nat → List Char
  | 0, _ => []
  | f + 1, n =>
      if n < 10 then [digitChar n]
      else decimalDigitsAux f (n / 10) ++ [digitChar (n % 10)]

/-- Decimal numeral of a natural number, most significant digit first:
the digit sequence `printf("%d", n)` emits. -/
def decimalDigits (n : Nat) : List Char := decimalDigitsAux (n + 1) n

/-- Zero padding of `printf("%0wd", n)` for a non-negative value: pad the
numeral on the left with zeros up to width `w`, never truncating. -/
def padZeros (w : Nat) (cs : List Char) : List Char :=
  List.replicate (w - cs.length) '0' ++ cs

/-- `format_time` of the flat variant `stopwatch.c`:
`sprintf(buf, "%02d:%02d:%02d.%03d", hrs, mins, secs, ms)` with
`hrs=(int)(t/3600)`, `mins=((int)t/60)%60`, `secs=(int)t%60`,
`ms=(int)((t-(int)t)*1000)`. -/
def format_time_sprintf (t : ℚ) : String :=
  let hrs : Nat := Int.toNat ⌊t / 3600⌋
  let mins : Nat := (Int.toNat ⌊t⌋ / 60) % 60
  let secs : Nat := Int.toNat ⌊t⌋ % 60
  let ms : Nat := Int.toNat ⌊(t - (⌊t⌋ : ℚ)) * 1000⌋
  String.mk (padZeros 2 (decimalDigits hrs) ++ [':'] ++
             padZeros 2 (decimalDigits mins) ++ [':'] ++
             padZeros 2 (decimalDigits secs) ++ ['.'] ++
             padZeros 3 (decimalDigits ms))

/-- One Org entry written by `save_log`: the session heading (one star,
the goal, the wall-clock range and total duration) or a node heading
(`level+2` stars, the node name, formatted start/end/duration). -/
inductive Entry where
  | session (goal : String) (startWall endWall : ℚ) (durBuf : String)
  | node (stars : Nat) (nm : String) (startBuf endBuf durBuf : String)
  deriving Repr, DecidableEq

/-- The subgoal loop of `save_log`: skip every split with `end < 0`,
emit `level+2` stars, the name and the CLOCK line for the rest,
in creation-index order. -/
def nodeEntries : List Split → List Entry
  | [] => []
  | sp :: rest =>
      if sp.endT < 0 then nodeEntries rest
      else Entry.node (sp.level + 2).toNat sp.name
             (format_time sp.start) (format_time sp.endT)
             (format_time (sp.endT - sp.start)) :: nodeEntries rest

/-- `save_log` of the hierarchical variant: nothing if the goal is empty,
else the session entry followed by the node entries.  `endt` is the
`time(NULL)` reading at the call; `difftime` is the rational difference. -/
def save_log (s : State) (endt : ℚ) : List Entry :=
  if s.mainGoal = "" then []
  else Entry.session s.mainGoal s.logStart endt (format_time (endt - s.logStart)) ::
         nodeEntries s.splits

/-- What the `t` key appends to the log sink:
`if(!running && *mainGoal) save_log();`. -/
def exportOut (s : State) (endt : ℚ) : List Entry :=
  if s.running = false ∧ s.mainGoal ≠ "" then save_log s endt else []

/-- The elapsed-seconds value the render tick displays (`draw_time_line` /
`draw_dynamic`): `elapsed` plus the current counter delta over the
frequency while running, plain `elapsed` while stopped. -/
def currentElapsed (s : State) (now : ℚ) : ℚ :=
  if s.running then s.elapsed + (now - s.startCount) / s.freq else s.elapsed

/-- The cursor index `i` is either −1 (no node) or points to an open node
whose whole parent chain upward is open as well. -/
inductive ChainOpen (l : List Split) : Int → Prop where
  | top (i : Int) : i < 0 → ChainOpen l i
  | node (i : Int) : 0 ≤ i → i < (l.length : Int) →
      (getSplit l i).endT < 0 → ChainOpen l (getSplit l i).parent →
      ChainOpen l i

/-- Every node's parent field is −1 or the index of an earlier node. -/
def ParentsDec (l : List Split) : Prop :=
  ∀ i : Nat, i < l.length →
    -1 ≤ (getSplit l (i : Int)).parent ∧ (getSplit l (i : Int)).parent < (i : Int)

/-- The inductive invariant of the key loop: the cursor is −1 or in
bounds, parent indices strictly decrease, and the cursor's parent chain
is entirely open. -/
def LoopInv (s : State) : Prop :=
  -1 ≤ s.activeSplit ∧ s.activeSplit < (s.splits.length : Int) ∧
    ParentsDec s.splits ∧ ChainOpen s.splits s.activeSplit

lemma getSplit_append (l : List Split) (e : Split) {i : Int}
    (h0 : 0 ≤ i) (hlt : i < (l.length : Int)) :
    getSplit (l ++ [e]) i = getSplit l i := by
  have hnat : i.toNat < l.length := by omega
  simp [getSplit, List.getD_eq_getElem?_getD, List.getElem?_append_left hnat]

lemma getSplit_concat (l : List Split) (e : Split) :
    getSplit (l ++ [e]) (l.length : Int) = e := by
  simp [getSplit, List.getD_eq_getElem?_getD, List.getElem?_concat_length]

lemma getSplit_set_ne (l : List Split) (k : Nat) (e : Split) {i : Int}
    (h : i.toNat ≠ k) :
    getSplit (l.set k e) i = getSplit l i := by
  simp [getSplit, List.getD_eq_getElem?_getD, List.getElem?_set_ne (Ne.symm h)]

lemma getSplit_set_self (l : List Split) (k : Nat) (e : Split)
    (h : k < l.length) :
    getSplit (l.set k e) (k : Int) = e := by
  simp [getSplit, List.getD_eq_getElem?_getD, List.getElem?_set_self h]

lemma chainOpen_append {l : List Split} (e : Split) {j : Int}
    (h : ChainOpen l j) : ChainOpen (l ++ [e]) j := by
  induction h with
  | top i hi => exact .top i hi
  | node i h0 hlt hopen _ ih =>
      refine .node i h0 (by simp; omega) ?_ ?_ <;>
        rw [getSplit_append l e h0 hlt]
      · exact hopen
      · exact ih

lemma chainOpen_set_lt {l : List Split} (hP : ParentsDec l) {j : Int}
    (h : ChainOpen l j) :
    ∀ (k : Nat) (e : Split), j < (k : Int) → ChainOpen (l.set k e) j := by
  induction h with
  | top i hi => exact fun k e _ => .top i hi
  | node i h0 hlt hopen _ ih =>
      intro k e hik
      have hne : i.toNat ≠ k := by omega
      have hpar := hP i.toNat (by omega)
      have hcast : ((i.toNat : Nat) : Int) = i := by omega
      rw [hcast] at hpar
      refine .node i h0 (by simpa using hlt) ?_ ?_ <;>
        rw [getSplit_set_ne l k e hne]
      · exact hopen
      · exact ih k e (by omega)

lemma chainOpen_parent {l : List Split} {i : Int}
    (h : ChainOpen l i) (h0 : 0 ≤ i) : ChainOpen l (getSplit l i).parent := by
  cases h with
  | top _ hi => omega
  | node _ _ _ _ hch => exact hch

lemma chainOpen_open {l : List Split} {i : Int}
    (h : ChainOpen l i) (h0 : 0 ≤ i) : (getSplit l i).endT < 0 := by
  cases h with
  | top _ hi => omega
  | node _ _ _ hopen _ => exact hopen

lemma inv_init (freq : ℚ) : LoopInv (init freq) := by
  refine ⟨by norm_num [init], by norm_num [init], ?_, .top _ (by norm_num [init])⟩
  intro i hi
  simp [init] at hi

lemma inv_step (s : State) (e : Event) (h : LoopInv s) : LoopInv (step s e) := by
  obtain ⟨hA1, hA2, hB, hC⟩ := h
  cases e with
  | keyS now goal wall =>
      by_cases hr : s.running = true
      · simpa [step, hr, LoopInv] using ⟨hA1, hA2, hB, hC⟩
      · refine ⟨?_, ?_, ?_, ?_⟩ <;> simp [step, hr, LoopInv, ParentsDec]
        exact .top _ (by norm_num)
  | keyR =>
      refine ⟨?_, ?_, ?_, ?_⟩ <;> simp [step, LoopInv, ParentsDec]
      exact .top _ (by norm_num)
  | keyG now nm =>
      by_cases hc : s.running = true ∧ s.splits.length < MAX_SPLITS
      · simp only [step, if_pos hc, LoopInv]
        refine ⟨by omega, by simp, ?_, ?_⟩
        · intro i hi
          simp only [List.length_append, List.length_cons, List.length_nil] at hi
          rcases Nat.lt_or_ge i s.splits.length with hlt | hge
          · rw [getSplit_append _ _ (by omega) (by omega)]
            exact hB i hlt
          · have hi' : i = s.splits.length := by omega
            subst hi'
            rw [getSplit_concat]
            exact ⟨hA1, hA2⟩
        · refine .node _ (by omega) (by simp) ?_ ?_ <;> rw [getSplit_concat]
          · norm_num
          · exact chainOpen_append _ hC
      · simpa [step, if_neg hc, LoopInv] using ⟨hA1, hA2, hB, hC⟩
  | keyN now nm =>
      by_cases hc : s.running = true ∧ 0 ≤ s.activeSplit ∧
          s.splits.length < MAX_SPLITS
      · simp only [step, if_pos hc, LoopInv]
        refine ⟨by omega, by simp, ?_, ?_⟩
        · intro i hi
          simp only [List.length_append, List.length_cons, List.length_nil] at hi
          rcases Nat.lt_or_ge i s.splits.length with hlt | hge
          · rw [getSplit_append _ _ (by omega) (by omega)]
            exact hB i hlt
          · have hi' : i = s.splits.length := by omega
            subst hi'
            rw [getSplit_concat]
            exact ⟨hA1, hA2⟩
        · refine .node _ (by omega) (by simp) ?_ ?_ <;> rw [getSplit_concat]
          · norm_num
          · exact chainOpen_append _ hC
      · simpa [step, if_neg hc, LoopInv] using ⟨hA1, hA2, hB, hC⟩
  | keyH now =>
      by_cases hc : 0 ≤ s.activeSplit
      · simp only [step, if_pos hc, LoopInv]
        have hbnd := hB s.activeSplit.toNat (by omega)
        have hcast : ((s.activeSplit.toNat : Nat) : Int) = s.activeSplit := by omega
        rw [hcast] at hbnd
        refine ⟨by omega, ?_, ?_, ?_⟩
        · simp only [List.length_set]; omega
        · intro i hi
          simp only [List.length_set] at hi
          rcases eq_or_ne i s.activeSplit.toNat with heq | hne
          · rw [heq, getSplit_set_self _ _ _ (by omega)]
            dsimp only
            omega
          · rw [getSplit_set_ne _ _ _ (by omega)]
            exact hB i hi
        · exact chainOpen_set_lt hB (chainOpen_parent hC hc) _ _ (by omega)
      · simpa [step, if_neg hc, LoopInv] using ⟨hA1, hA2, hB, hC⟩
  | keyU =>
      by_cases hc : 0 ≤ s.activeSplit
      · simp only [step, if_pos hc, LoopInv]
        have hbnd := hB s.activeSplit.toNat (by omega)
        have hcast : ((s.activeSplit.toNat : Nat) : Int) = s.activeSplit := by omega
        rw [hcast] at hbnd
        exact ⟨by omega, by omega, hB, chainOpen_parent hC hc⟩
      · simpa [step, if_neg hc, LoopInv] using ⟨hA1, hA2, hB, hC⟩
  | keyT =>
      exact ⟨hA1, hA2, hB, hC⟩

lemma inv_execEvents (s : State) (h : LoopInv s) (evs : List Event) :
    LoopInv (execEvents s evs) := by
  induction evs generalizing s with
  | nil => exact h
  | cons e rest ih => exact ih (step s e) (inv_step s e h)

lemma inv_reachable {s : State} (h : Reachable s) : LoopInv s := by
  obtain ⟨freq, evs, rfl⟩ := h
  exact inv_execEvents _ (inv_init freq) evs

lemma decimalDigitsAux_mem {f n : Nat} {c : Char}
    (h : c ∈ decimalDigitsAux f n) : ∃ d, d < 10 ∧ c = digitChar d := by
  induction f generalizing n with
  | zero => simp [decimalDigitsAux] at h
  | succ f ih =>
      rw [decimalDigitsAux] at h
      by_cases hn : n < 10
      · rw [if_pos hn] at h
        simp at h
        exact ⟨n, hn, h⟩
      · rw [if_neg hn] at h
        rcases List.mem_append.1 h with h | h
        · exact ih h
        · simp at h
          exact ⟨n % 10, Nat.mod_lt _ (by omega), h⟩

lemma digitChar_bne_colon {d : Nat} (h : d < 10) : (digitChar d != ':') = true := by
  interval_cases d <;> decide

lemma one_le_length_decimalDigitsAux {f n : Nat} (h : n < f) :
    1 ≤ (decimalDigitsAux f n).length := by
  cases f with
  | zero => omega
  | succ f =>
      rw [decimalDigitsAux]
      by_cases hn : n < 10 <;> simp [hn]

lemma three_le_length_decimalDigitsAux {f n : Nat} (hf : n < f) (hn : 100 ≤ n) :
    3 ≤ (decimalDigitsAux f n).length := by
  cases f with
  | zero => omega
  | succ f =>
      rw [decimalDigitsAux, if_neg (by omega)]
      cases f with
      | zero => omega
      | succ f2 =>
          rw [decimalDigitsAux, if_neg (by omega)]
          have h1 : 1 ≤ (decimalDigitsAux f2 (n / 10 / 10)).length :=
            one_le_length_decimalDigitsAux (by omega)
          simp
          omega

lemma takeWhile_append_eq_of_all {p : Char → Bool} :
    ∀ (xs : List Char) (y : Char) (ys : List Char),
      (∀ x ∈ xs, p x = true) → p y = false →
      List.takeWhile p (xs ++ y :: ys) = xs := by
  intro xs y ys hall hy
  induction xs with
  | nil => simp [List.takeWhile_cons, hy]
  | cons x xs ih =>
      have hx : p x = true := hall x (by simp)
      simp only [List.cons_append, List.takeWhile_cons, hx, if_pos]
      rw [ih fun z hz => hall z (by simp [hz])]

lemma padZeros_eq_of_le {w : Nat} {cs : List Char} (h : w ≤ cs.length) :
    padZeros w cs = cs := by
  simp [padZeros, Nat.sub_eq_zero_of_le h]

lemma padZeros_mem {w : Nat} {cs : List Char} {c : Char}
    (h : c ∈ padZeros w cs) : c = '0' ∨ c ∈ cs := by
  rcases List.mem_append.1 h with h | h
  · exact Or.inl (List.eq_of_mem_replicate h)
  · exact Or.inr h

lemma nodeEntries_eq_filter_map (l : List Split) :
    nodeEntries l = (l.filter (fun sp => decide (0 ≤ sp.endT))).map
      (fun sp => Entry.node (sp.level + 2).toNat sp.name
        (format_time sp.start) (format_time sp.endT)
        (format_time (sp.endT - sp.start))) := by
  induction l with
  | nil => rfl
  | cons sp rest ih =>
      by_cases hsp : sp.endT < 0
      · rw [nodeEntries, if_pos hsp, List.filter_cons,
          if_neg (by simpa using not_le.2 hsp)]
        exact ih
      · rw [nodeEntries, if_neg hsp, List.filter_cons,
          if_pos (by simpa using not_lt.1 hsp)]
        simpa using ih

/-- A concrete run: start a session, open subgoal A, open nested subgoal B
under A.  Used as a reachable sample state. -/
def demoOpen2 : State :=
  execEvents (init 1) [.keyS 0 "G" 0, .keyG 1 "A", .keyN 2 "B"]

/-- A concrete finished run: start, open A, open nested B, close B, stop.
Its tree holds one open node (A) and one closed node (B). -/
def demoExport : State :=
  execEvents (init 1) [.keyS 0 "G" 0, .keyG 1 "A", .keyN 2 "B", .keyH 3,
    .keyS 4 "" 5]

/-- C8: the duration formatter maps 3661.0 s to `01:01:01.000`, 0.0 s to
`00:00:00.000` and the 0.5 s duration of a node opened at t=5.0 and closed
at t=5.5 to `00:00:00.500`; both variants of `format_time` agree on all
three inputs. -/
theorem c8_format_time_values :
    format_time 3661 = "01:01:01.000" ∧
    format_time 0 = "00:00:00.000" ∧
    format_time (5.5 - 5.0 : ℚ) = "00:00:00.500" ∧
    format_time_sprintf 3661 = "01:01:01.000" ∧
    format_time_sprintf 0 = "00:00:00.000" ∧
    format_time_sprintf (5.5 - 5.0 : ℚ) = "00:00:00.500" := by
  refine ⟨?_, ?_, ?_, ?_, ?_, ?_⟩ <;>
    norm_num [format_time, format_time_sprintf, digitChar] <;> decide

/-- C2 counterexample: at 100 hours (360000 s) the hand-rolled
`format_time` of the hierarchical variant writes `'0'+100/10`, a colon,
as the first hour character: the output is `:0:00:00.000`, not the correct
`100:00:00.000` (which the `sprintf`-based variant produces). -/
theorem c2_counterexample :
    format_time 360000 = ":0:00:00.000" ∧
    format_time 360000 ≠ "100:00:00.000" ∧
    format_time_sprintf 360000 = "100:00:00.000" := by
  refine ⟨?_, ?_, ?_⟩ <;> norm_num [format_time, format_time_sprintf, digitChar] <;>
    decide

/-- C2 amended: the `sprintf`-based `format_time` of `stopwatch.c` never
clamps the hours field — the characters before the first colon are the
zero-padded full decimal numeral of the hour count, and for 100 hours or
more that numeral keeps all its (at least three) digits; the hand-rolled
`format_time` of the hierarchical variant instead writes a fixed
two-character hours field and mis-renders hours ≥ 100. -/
theorem c2_sprintf_hours_unclamped (t : ℚ) (_ht : 0 ≤ t) :
    (format_time_sprintf t).data.takeWhile (fun c => c != ':') =
      padZeros 2 (decimalDigits (Int.toNat ⌊t / 3600⌋)) ∧
    (100 ≤ Int.toNat ⌊t / 3600⌋ →
      (format_time_sprintf t).data.takeWhile (fun c => c != ':') =
        decimalDigits (Int.toNat ⌊t / 3600⌋) ∧
      3 ≤ (decimalDigits (Int.toNat ⌊t / 3600⌋)).length) := by
  have hmain : (format_time_sprintf t).data.takeWhile (fun c => c != ':') =
      padZeros 2 (decimalDigits (Int.toNat ⌊t / 3600⌋)) := by
    have hdata : (format_time_sprintf t).data =
        padZeros 2 (decimalDigits (Int.toNat ⌊t / 3600⌋)) ++ (':' ::
          (padZeros 2 (decimalDigits ((Int.toNat ⌊t⌋ / 60) % 60)) ++ [':'] ++
           padZeros 2 (decimalDigits (Int.toNat ⌊t⌋ % 60)) ++ ['.'] ++
           padZeros 3 (decimalDigits (Int.toNat ⌊(t - (⌊t⌋ : ℚ)) * 1000⌋)))) := by
      simp [format_time_sprintf]
    rw [hdata]
    refine takeWhile_append_eq_of_all _ _ _ ?_ (by decide)
    intro x hx
    rcases padZeros_mem hx with hx | hx
    · subst hx; decide
    · obtain ⟨d, hd, rfl⟩ := decimalDigitsAux_mem hx
      exact digitChar_bne_colon hd
  refine ⟨hmain, fun h100 => ?_⟩
  have hlen : 3 ≤ (decimalDigits (Int.toNat ⌊t / 3600⌋)).length :=
    three_le_length_decimalDigitsAux (by omega) h100
  exact ⟨by rw [hmain, padZeros_eq_of_le (by omega)], hlen⟩

/-- C2 witness: the amended statement applied at 100 hours. -/
theorem c2_sprintf_hours_unclamped_witness :
    (format_time_sprintf 360000).data.takeWhile (fun c => c != ':') =
      decimalDigits (Int.toNat ⌊(360000 : ℚ) / 3600⌋) :=
  ((c2_sprintf_hours_unclamped 360000 (by norm_num)).2 (by norm_num)).1

/-- C1 counterexample: in the reachable state produced by start, open A,
open nested B, there are two open nodes at once, and node 0 (the parent —
an ancestor — of the active node 1) is open, not stopped. -/
theorem c1_counterexample :
    Reachable demoOpen2 ∧
    (demoOpen2.splits.filter (fun sp => decide (sp.endT < 0))).length = 2 ∧
    demoOpen2.activeSplit = 1 ∧
    (getSplit demoOpen2.splits 1).parent = 0 ∧
    (getSplit demoOpen2.splits 0).endT < 0 := by
  refine ⟨⟨1, [.keyS 0 "G" 0, .keyG 1 "A", .keyN 2 "B"], rfl⟩, ?_, ?_, ?_, ?_⟩ <;>
    norm_num [demoOpen2, execEvents, step, init, cur, getSplit, MAX_SPLITS]

/-- C1 amended: the active node, when one exists, is always open; but more
than one node may be open at a time — opening a nested subgoal leaves its
parent open, so ancestors of the active node are open rather than stopped. -/
theorem c1_active_node_open (s : State) (h : Reachable s)
    (ha : 0 ≤ s.activeSplit) :
    (getSplit s.splits s.activeSplit).endT < 0 :=
  chainOpen_open (inv_reachable h).2.2.2 ha

/-- C1 witness: the amended statement at a concrete reachable state. -/
theorem c1_active_node_open_witness :
    (getSplit demoOpen2.splits demoOpen2.activeSplit).endT < 0 :=
  c1_active_node_open demoOpen2
    ⟨1, [.keyS 0 "G" 0, .keyG 1 "A", .keyN 2 "B"], rfl⟩
    (by norm_num [demoOpen2, execEvents, step, init, cur, getSplit, MAX_SPLITS])

/-- C9: in every reachable state the cursor's node and every ancestor on
its parent chain are open (`ChainOpen`); in particular the cursor never
points to a closed node, and its parent chain is itself all-open. -/
theorem c9_active_chain_open (s : State) (h : Reachable s) :
    ChainOpen s.splits s.activeSplit ∧
    (0 ≤ s.activeSplit →
      (getSplit s.splits s.activeSplit).endT < 0 ∧
      ChainOpen s.splits (getSplit s.splits s.activeSplit).parent) := by
  have hi := inv_reachable h
  exact ⟨hi.2.2.2, fun ha =>
    ⟨chainOpen_open hi.2.2.2 ha, chainOpen_parent hi.2.2.2 ha⟩⟩

/-- C9 witness: the chain-open invariant at a concrete reachable state. -/
theorem c9_active_chain_open_witness :
    ChainOpen demoOpen2.splits demoOpen2.activeSplit :=
  (c9_active_chain_open demoOpen2
    ⟨1, [.keyS 0 "G" 0, .keyG 1 "A", .keyN 2 "B"], rfl⟩).1

/-- C10: in every reachable state each node's parent index is −1 (none) or
the index of a strictly earlier node, so parent chains strictly decrease
and every ancestor walk terminates. -/
theorem c10_parents_decrease (s : State) (h : Reachable s) :
    ∀ i : Nat, i < s.splits.length →
      -1 ≤ (getSplit s.splits (i : Int)).parent ∧
      (getSplit s.splits (i : Int)).parent < (i : Int) :=
  fun i hi => (inv_reachable h).2.2.1 i hi

/-- C10 witness: parent of node 1 in a concrete run is in `[-1, 0]`. -/
theorem c10_parents_decrease_witness :
    -1 ≤ (getSplit demoOpen2.splits ((1 : Nat) : Int)).parent ∧
    (getSplit demoOpen2.splits ((1 : Nat) : Int)).parent < ((1 : Nat) : Int) :=
  c10_parents_decrease demoOpen2
    ⟨1, [.keyS 0 "G" 0, .keyG 1 "A", .keyN 2 "B"], rfl⟩ 1
    (by norm_num [demoOpen2, execEvents, step, init, cur, getSplit, MAX_SPLITS])

/-- C5: closing the active node (`h`) leaves the cursor at the closed
node's former parent; ascending (`u`) also moves the cursor to the parent
but changes nothing else — not the node array (so no node's `end` or any
other field) and no session field. -/
theorem c5_close_cursor_ascend_frame (s : State) (now : ℚ)
    (h : 0 ≤ s.activeSplit) :
    (step s (.keyH now)).activeSplit = (getSplit s.splits s.activeSplit).parent ∧
    (step s .keyU).activeSplit = (getSplit s.splits s.activeSplit).parent ∧
    (step s .keyU).splits = s.splits ∧
    (step s .keyU).running = s.running ∧
    (step s .keyU).elapsed = s.elapsed ∧
    (step s .keyU).freq = s.freq ∧
    (step s .keyU).startCount = s.startCount ∧
    (step s .keyU).mainGoal = s.mainGoal ∧
    (step s .keyU).logStart = s.logStart := by
  simp [step, h]

/-- C5 witness: the close/ascend behaviour at a concrete state. -/
theorem c5_close_cursor_ascend_frame_witness :
    (step demoOpen2 (.keyH 7)).activeSplit =
      (getSplit demoOpen2.splits demoOpen2.activeSplit).parent ∧
    (step demoOpen2 .keyU).activeSplit =
      (getSplit demoOpen2.splits demoOpen2.activeSplit).parent ∧
    (step demoOpen2 .keyU).splits = demoOpen2.splits ∧
    (step demoOpen2 .keyU).running = demoOpen2.running ∧
    (step demoOpen2 .keyU).elapsed = demoOpen2.elapsed ∧
    (step demoOpen2 .keyU).freq = demoOpen2.freq ∧
    (step demoOpen2 .keyU).startCount = demoOpen2.startCount ∧
    (step demoOpen2 .keyU).mainGoal = demoOpen2.mainGoal ∧
    (step demoOpen2 .keyU).logStart = demoOpen2.logStart :=
  c5_close_cursor_ascend_frame demoOpen2 7
    (by norm_num [demoOpen2, execEvents, step, init, cur, getSplit, MAX_SPLITS])

/-- C6: the `t` key exports only when the session is stopped and the goal
is non-empty — while running or with an empty goal nothing is written —
and, in every state whatsoever, reset followed immediately by export
writes nothing (reset clears the goal) and the export key leaves the
whole state unchanged. -/
theorem c6_export_guard (s : State) (endt : ℚ) :
    (s.running = true ∨ s.mainGoal = "" → exportOut s endt = []) ∧
    exportOut (step s .keyR) endt = [] ∧
    step s .keyT = s := by
  refine ⟨fun h => ?_, ?_, rfl⟩
  · rcases h with h | h <;> simp [exportOut, h]
  · simp [exportOut, step]

/-- C6 witness: export emits nothing on a concrete running state, and on
a concrete stopped state with a non-empty goal (an exportable one) reset
followed by export emits nothing and the export key changes nothing. -/
theorem c6_export_guard_witness :
    exportOut demoOpen2 9 = [] ∧
    exportOut (step demoExport .keyR) 9 = [] ∧
    step demoExport .keyT = demoExport :=
  ⟨(c6_export_guard demoOpen2 9).1
    (Or.inl (by norm_num [demoOpen2, execEvents, step, init, cur, MAX_SPLITS])),
   (c6_export_guard demoExport 9).2.1,
   (c6_export_guard demoExport 9).2.2⟩

/-- C7: the displayed elapsed time is monotonically non-decreasing in the
clock reading while the session runs (positive counter frequency), and is
the constant `elapsed` while stopped. -/
theorem c7_current_elapsed_monotone (s : State) (n1 n2 : ℚ)
    (hf : 0 < s.freq) (h12 : n1 ≤ n2) :
    (s.running = true → currentElapsed s n1 ≤ currentElapsed s n2) ∧
    (s.running = false → currentElapsed s n1 = currentElapsed s n2) := by
  constructor <;> intro hr <;> simp [currentElapsed, hr]
  gcongr

/-- C7 witness: monotonicity at a concrete running state and two clock
readings. -/
theorem c7_current_elapsed_monotone_witness :
    (demoOpen2.running = true →
      currentElapsed demoOpen2 3 ≤ currentElapsed demoOpen2 4) ∧
    (demoOpen2.running = false →
      currentElapsed demoOpen2 3 = currentElapsed demoOpen2 4) :=
  c7_current_elapsed_monotone demoOpen2 3 4
    (by norm_num [demoOpen2, execEvents, step, init, cur, MAX_SPLITS])
    (by norm_num)

/-- C4: when the goal is non-empty, export is the single session entry
followed by exactly one nested entry per node with non-sentinel `end`
(`end ≥ 0`), each carrying `level + 2` stars, in creation order; open
nodes are skipped, so one open plus one closed node yield exactly one
nested entry. -/
theorem c4_export_entries (s : State) (endt : ℚ) (hg : s.mainGoal ≠ "") :
    save_log s endt =
      Entry.session s.mainGoal s.logStart endt
          (format_time (endt - s.logStart)) ::
        (s.splits.filter (fun sp => decide (0 ≤ sp.endT))).map
          (fun sp => Entry.node (sp.level + 2).toNat sp.name
            (format_time sp.start) (format_time sp.endT)
            (format_time (sp.endT - sp.start))) ∧
    (∀ o c : Split, o.endT < 0 → 0 ≤ c.endT →
      (nodeEntries [o, c]).length = 1) := by
  refine ⟨?_, ?_⟩
  · rw [save_log, if_neg hg, nodeEntries_eq_filter_map]
  · intro o c ho hc
    simp [nodeEntries, ho, not_lt.2 hc]

/-- C4 witness: the export shape at a concrete stopped state holding one
open and one closed node. -/
theorem c4_export_entries_witness :
    save_log demoExport 6 =
      Entry.session demoExport.mainGoal demoExport.logStart 6
          (format_time (6 - demoExport.logStart)) ::
        (demoExport.splits.filter (fun sp => decide (0 ≤ sp.endT))).map
          (fun sp => Entry.node (sp.level + 2).toNat sp.name
            (format_time sp.start) (format_time sp.endT)
            (format_time (sp.endT - sp.start))) ∧
    (∀ o c : Split, o.endT < 0 → 0 ≤ c.endT →
      (nodeEntries [o, c]).length = 1) :=
  c4_export_entries demoExport 6
    (by norm_num [demoExport, execEvents, step, init, cur, MAX_SPLITS]; decide)

/-- C3: after start, open A, open nested B, close, close, stop, the tree
has exactly two nodes, B (index 1) has level `A.level + 1 = 1` and parent
A (index 0), and both nodes carry a non-sentinel `end` at least their
`start` (given a monotone clock and positive counter frequency). -/
theorem c3_nested_run (S : State)
    (freq t0 t1 t2 t3 t4 t5 w w2 : ℚ) (g a b g2 : String)
    (hf : 0 < freq) (h01 : t0 ≤ t1) (h12 : t1 ≤ t2) (h23 : t2 ≤ t3)
    (h34 : t3 ≤ t4)
    (hS : S = execEvents (init freq)
      [.keyS t0 g w, .keyG t1 a, .keyN t2 b, .keyH t3, .keyH t4,
       .keyS t5 g2 w2]) :
    S.splits.length = 2 ∧
    (getSplit S.splits 0).level = 0 ∧
    (getSplit S.splits 1).level = (getSplit S.splits 0).level + 1 ∧
    (getSplit S.splits 1).level = 1 ∧
    (getSplit S.splits 1).parent = 0 ∧
    (getSplit S.splits 0).parent = -1 ∧
    0 ≤ (getSplit S.splits 0).endT ∧
    (getSplit S.splits 0).start ≤ (getSplit S.splits 0).endT ∧
    0 ≤ (getSplit S.splits 1).endT ∧
    (getSplit S.splits 1).start ≤ (getSplit S.splits 1).endT := by
  subst hS
  simp only [execEvents, List.foldl]
  norm_num [step, init, cur, getSplit, MAX_SPLITS]
  refine ⟨div_nonneg (by linarith) hf.le, ?_,
    div_nonneg (by linarith) hf.le, ?_⟩ <;> gcongr <;> linarith

/-- C3 witness: the sequence at concrete times 0,1,2,3,4,5 and
frequency 1. -/
theorem c3_nested_run_witness :
    (execEvents (init 1)
      [.keyS 0 "G" 0, .keyG 1 "A", .keyN 2 "B", .keyH 3, .keyH 4,
       .keyS 5 "" 0]).splits.length = 2 ∧
    (getSplit (execEvents (init 1)
      [.keyS 0 "G" 0, .keyG 1 "A", .keyN 2 "B", .keyH 3, .keyH 4,
       .keyS 5 "" 0]).splits 0).level = 0 ∧
    (getSplit (execEvents (init 1)
      [.keyS 0 "G" 0, .keyG 1 "A", .keyN 2 "B", .keyH 3, .keyH 4,
       .keyS 5 "" 0]).splits 1).level =
      (getSplit (execEvents (init 1)
      [.keyS 0 "G" 0, .keyG 1 "A", .keyN 2 "B", .keyH 3, .keyH 4,
       .keyS 5 "" 0]).splits 0).level + 1 ∧
    (getSplit (execEvents (init 1)
      [.keyS 0 "G" 0, .keyG 1 "A", .keyN 2 "B", .keyH 3, .keyH 4,
       .keyS 5 "" 0]).splits 1).level = 1 ∧
    (getSplit (execEvents (init 1)
      [.keyS 0 "G" 0, .keyG 1 "A", .keyN 2 "B", .keyH 3, .keyH 4,
       .keyS 5 "" 0]).splits 1).parent = 0 ∧
    (getSplit (execEvents (init 1)
      [.keyS 0 "G" 0, .keyG 1 "A", .keyN 2 "B", .keyH 3, .keyH 4,
       .keyS 5 "" 0]).splits 0).parent = -1 ∧
    0 ≤ (getSplit (execEvents (init 1)
      [.keyS 0 "G" 0, .keyG 1 "A", .keyN 2 "B", .keyH 3, .keyH 4,
       .keyS 5 "" 0]).splits 0).endT ∧
    (getSplit (execEvents (init 1)
      [.keyS 0 "G" 0, .keyG 1 "A", .keyN 2 "B", .keyH 3, .keyH 4,
       .keyS 5 "" 0]).splits 0).start ≤
      (getSplit (execEvents (init 1)
      [.keyS 0 "G" 0, .keyG 1 "A", .keyN 2 "B", .keyH 3, .keyH 4,
       .keyS 5 "" 0]).splits 0).endT ∧
    0 ≤ (getSplit (execEvents (init 1)
      [.keyS 0 "G" 0, .keyG 1 "A", .keyN 2 "B", .keyH 3, .keyH 4,
       .keyS 5 "" 0]).splits 1).endT ∧
    (getSplit (execEvents (init 1)
      [.keyS 0 "G" 0, .keyG 1 "A", .keyN 2 "B", .keyH 3, .keyH 4,
       .keyS 5 "" 0]).splits 1).start ≤
      (getSplit (execEvents (init 1)
      [.keyS 0 "G" 0, .keyG 1 "A", .keyN 2 "B", .keyH 3, .keyH 4,
       .keyS 5 "" 0]).splits 1).endT :=
  c3_nested_run _ 1 0 1 2 3 4 5 0 0 "G" "A" "B" "" (by norm_num)
    (by norm_num) (by norm_num) (by norm_num) (by norm_num) rfl
